import Mathlib

set_option maxRecDepth 8000

/-!
# Verification of the BWB MAC geometry/numerics engine

Shallow embedding of the core numerical components of the BWB_MAC repository:
the MAC integrator (`MACCalculator.calculate` and its helpers), the chordwise
interpolator (`MACCalculator.interpolateX`), the curve sampler
(`MACCalculator.sampleShape`), the tridiagonal solver (`thomasAlgorithm`),
the cubic-spline fitter (`CubicSpline`), and the symmetry-line coordinate
transform.  JavaScript floating-point numbers are modelled as exact rationals
(`ℚ`) for the integrator pipeline and as reals (`ℝ`) for the trigonometric
transform; JavaScript `throw` is modelled with `Except`.
-/

namespace BWB

/-- Planar point `{x, y}`. -/
structure Point (α : Type) where
  x : α
  y : α
deriving DecidableEq, Repr

/-- Errors raised by `MACCalculator.calculate` (the three `throw new Error`
sites: "Insufficient points", "Zero span detected", "Zero area detected"). -/
inductive CalcError where
  | insufficientPoints
  | zeroSpan
  | zeroArea
deriving DecidableEq, Repr

/-- The record returned by `MACCalculator.calculate`.  The `rotationAngle` and
`origin` fields of the JavaScript record are pass-throughs of the symmetry-line
input (which lives in the real-valued transform stage, modelled separately) and
are omitted from the rational-valued integrator model. -/
structure MACResult where
  MAC : ℚ
  Area : ℚ
  MAC_pixels : ℚ
  Y_mac_pixels : ℚ
  X_le_mac_pixels : ℚ
  scaleFactor : ℚ
deriving DecidableEq, Repr

/-- The bracket-scanning loop of `MACCalculator.interpolateX`
(`for (let i = 0; i < samples.length - 1; i++) ...`): returns `some v` when the
first adjacent pair with `samples[i].y <= y && samples[i+1].y >= y` is found,
`none` when the loop falls through. -/
def interpLoop (y : ℚ) : List (Point ℚ) → Option ℚ
  | p :: q :: rest =>
      if p.y ≤ y ∧ q.y ≥ y then
        some (if q.y - p.y = 0 then p.x
              else p.x + (y - p.y) / (q.y - p.y) * (q.x - p.x))
      else interpLoop y (q :: rest)
  | _ => none

/-- `MACCalculator.interpolateX(samples, y)`.  The JavaScript `1e-9` boundary
tolerance is modelled as the exact rational `1/1000000000`.  (On an empty list
the JavaScript code would crash reading `samples[0].y`; the model totalises
with a `⟨0,0⟩` default, and every claim about this function assumes a usable
profile.) -/
def interpolateX (samples : List (Point ℚ)) (y : ℚ) : ℚ :=
  let first := samples.headD ⟨0, 0⟩
  let last := samples.getLastD ⟨0, 0⟩
  if y < first.y ∨ y > last.y then
    if |y - first.y| < 1 / 1000000000 then first.x
    else if |y - last.y| < 1 / 1000000000 then last.x
    else 0
  else
    match interpLoop y samples with
    | some v => v
    | none => last.x

/-- `MACCalculator.getMinY`: `0` for an empty list, else the first sample's y. -/
def getMinY : List (Point ℚ) → ℚ
  | [] => 0
  | p :: _ => p.y

/-- `MACCalculator.getMaxY`: `0` for an empty list, else the last sample's y. -/
def getMaxY : List (Point ℚ) → ℚ
  | [] => 0
  | l => (l.getLastD ⟨0, 0⟩).y

/-- `MACCalculator.getMaxDist`: fold of `max` over `|p.y|` starting from `0`. -/
def getMaxDist (samples : List (Point ℚ)) : ℚ :=
  samples.foldl (fun m p => max m |p.y|) 0

/-- `minY = Math.max(getMinY(LE), getMinY(TE))` in `calculate`. -/
def minYOf (LE TE : List (Point ℚ)) : ℚ := max (getMinY LE) (getMinY TE)

/-- `maxY = Math.min(getMaxY(LE), getMaxY(TE))` in `calculate`. -/
def maxYOf (LE TE : List (Point ℚ)) : ℚ := min (getMaxY LE) (getMaxY TE)

/-- `dy = (maxY - minY) / 1000` in `calculate`. -/
def dyStep (LE TE : List (Point ℚ)) : ℚ := (maxYOf LE TE - minYOf LE TE) / 1000

/-- One body execution of the integration loop of `calculate`:
`chord = |x_te - x_le|`, `da = chord*dy`, and the three accumulations
`area += da`, `moment_y += |y|*da`, `integral_c_sq += chord*chord*dy`. -/
def integStep (LE TE : List (Point ℚ)) (dy y : ℚ) (acc : ℚ × ℚ × ℚ) : ℚ × ℚ × ℚ :=
  let x_le := interpolateX LE y
  let x_te := interpolateX TE y
  let chord := |x_te - x_le|
  let da := chord * dy
  (acc.1 + da, acc.2.1 + |y| * da, acc.2.2 + chord * chord * dy)

/-- The integration loop `for (let y = minY; y <= maxY; y += dy) ...` of
`calculate`.  The loop is fuel-indexed; since `dy = (maxY - minY)/1000`, the
JavaScript loop performs at most 1001 iterations (none when `minY > maxY`), so
running with fuel `1002` produces exactly the JavaScript result. -/
def integLoop (LE TE : List (Point ℚ)) (maxY dy : ℚ) :
    ℕ → ℚ → ℚ × ℚ × ℚ → ℚ × ℚ × ℚ
  | 0, _, acc => acc
  | fuel + 1, y, acc =>
      if y ≤ maxY then
        integLoop LE TE maxY dy fuel (y + dy) (integStep LE TE dy y acc)
      else acc

/-- The accumulated `(area, moment_y, integral_c_sq)` triple produced by the
integration loop of `calculate`, started at `y = minY` from `(0, 0, 0)`. -/
def integAccums (LE TE : List (Point ℚ)) : ℚ × ℚ × ℚ :=
  integLoop LE TE (maxYOf LE TE) (dyStep LE TE) 1002 (minYOf LE TE) (0, 0, 0)

/-- The local `Y_mac_pixels = moment_y / area` computed by the integrator stage
of `calculate` (the analytic chord-weighted spanwise centroid; the field of the
returned record with that name is later overwritten by the visual search). -/
def yMacCentroid (LE TE : List (Point ℚ)) : ℚ :=
  (integAccums LE TE).2.1 / (integAccums LE TE).1

/-- The visual-Y search loop of `calculate`
(`for (let y = minY; y <= maxY; y += dy) { ... if (diff < minDiff) ... }`).
`minDiff` starts at JavaScript `Infinity`, modelled as `none`. -/
def visLoop (LE TE : List (Point ℚ)) (maxY dy MACpx : ℚ) :
    ℕ → ℚ → ℚ → Option ℚ → ℚ
  | 0, _, vy, _ => vy
  | fuel + 1, y, vy, minDiff =>
      if y ≤ maxY then
        let chord := |interpolateX TE y - interpolateX LE y|
        let diff := |chord - MACpx|
        if minDiff.all (fun m => decide (diff < m)) then
          visLoop LE TE maxY dy MACpx fuel (y + dy) y (some diff)
        else
          visLoop LE TE maxY dy MACpx fuel (y + dy) vy minDiff
      else vy

/-- `MACCalculator.calculate`, from the point where the two flattened,
transformed, span-sorted sample lists `LE_samples`/`TE_samples` exist
(the trigonometric transform and sampling stage is modelled separately over
`ℝ`/generic fields).  Mirrors the source control flow: the
insufficient-points check, the `dy === 0` zero-span check, the integration
loop, the zero-area check, the visual-Y search, and the scaling. -/
def calculate (LE TE : List (Point ℚ)) (realWingspan : ℚ) :
    Except CalcError MACResult :=
  let minY := minYOf LE TE
  let maxY := maxYOf LE TE
  if LE.length < 2 ∨ TE.length < 2 then .error .insufficientPoints
  else
    let dy := dyStep LE TE
    if dy = 0 then .error .zeroSpan
    else
      let acc := integAccums LE TE
      let area := acc.1
      let moment_y := acc.2.1
      let integral_c_sq := acc.2.2
      if area = 0 then .error .zeroArea
      else
        let MAC_pixels := integral_c_sq / area
        let Y_mac_pixels := moment_y / area
        let visual_Y := visLoop LE TE maxY dy MAC_pixels 1002 minY Y_mac_pixels none
        let X_le_mac_pixels := interpolateX LE visual_Y
        let maxDist := max (getMaxDist LE) (getMaxDist TE)
        let scaleFactor := realWingspan / 2 / maxDist
        .ok
          { MAC := MAC_pixels * scaleFactor
            Area := area * (scaleFactor * scaleFactor) *
              (if minY * maxY < 0 then 1 else 2)
            MAC_pixels := MAC_pixels
            Y_mac_pixels := visual_Y
            X_le_mac_pixels := X_le_mac_pixels
            scaleFactor := scaleFactor }

/-- The left-rectangle sample position `y_k = minY + k * dy` of the claimed
1000-step partition of `[minY, maxY]`. -/
def samplePt (LE TE : List (Point ℚ)) (k : ℕ) : ℚ :=
  minYOf LE TE + k * dyStep LE TE

/-- `chord(y) = |chordTE(y) - chordLE(y)|`. -/
def chordAt (LE TE : List (Point ℚ)) (y : ℚ) : ℚ :=
  |interpolateX TE y - interpolateX LE y|

/-- The left-rectangle area sum `∑ chord(y_k) * dy` over the inclusive
1001-point partition, as the specification describes the accumulation. -/
def specArea (LE TE : List (Point ℚ)) : ℚ :=
  ∑ k ∈ Finset.range 1001, chordAt LE TE (samplePt LE TE k) * dyStep LE TE

/-- The spanwise moment sum `∑ |y_k| * chord(y_k) * dy`. -/
def specMoment (LE TE : List (Point ℚ)) : ℚ :=
  ∑ k ∈ Finset.range 1001,
    |samplePt LE TE k| * chordAt LE TE (samplePt LE TE k) * dyStep LE TE

/-- The chord-squared sum `∑ chord(y_k)^2 * dy`. -/
def specCsq (LE TE : List (Point ℚ)) : ℚ :=
  ∑ k ∈ Finset.range 1001,
    chordAt LE TE (samplePt LE TE k) ^ 2 * dyStep LE TE

/-- The `visual_Y` value computed by the search loop of `calculate` on the
success path (its starting candidate is the analytic `moment_y / area`). -/
def visualY (LE TE : List (Point ℚ)) : ℚ :=
  visLoop LE TE (maxYOf LE TE) (dyStep LE TE)
    ((integAccums LE TE).2.2 / (integAccums LE TE).1) 1002 (minYOf LE TE)
    ((integAccums LE TE).2.1 / (integAccums LE TE).1) none

/-- `scaleFactor = (realWingspan / 2) / maxDist` as computed by `calculate`. -/
def scaleFactorOf (LE TE : List (Point ℚ)) (realWingspan : ℚ) : ℚ :=
  realWingspan / 2 / max (getMaxDist LE) (getMaxDist TE)

/-! ## Tridiagonal solver and cubic-spline fitter (`Spline.js`)

The JavaScript works on `Float64Array`s of a fixed length `n`; the embedding
uses functions `ℕ → α` over a generic field together with the length.
`thomasAlgorithm` writes `cPrime[0]` unconditionally, guards `cPrime[i]` for
`0 < i` by `i < n - 1` (other slots stay `0`, as in a zero-initialised
`Float64Array`), and back-substitutes from index `n - 1` downwards; the
back-substitution is embedded through `thomasXRev j = x[n - 1 - j]`. -/

section SplineDefs

variable {α : Type} [Field α]

/-- Forward-elimination coefficients `cPrime` of `thomasAlgorithm`. -/
def thomasCP (a b c : ℕ → α) (n : ℕ) : ℕ → α
  | 0 => c 0 / b 0
  | i + 1 =>
      if i + 1 < n - 1 then
        c (i + 1) / (b (i + 1) - a (i + 1) * thomasCP a b c n i)
      else 0

/-- Forward-elimination right-hand sides `dPrime` of `thomasAlgorithm`. -/
def thomasDP (a b c d : ℕ → α) (n : ℕ) : ℕ → α
  | 0 => d 0 / b 0
  | i + 1 =>
      (d (i + 1) - a (i + 1) * thomasDP a b c d n i) /
        (b (i + 1) - a (i + 1) * thomasCP a b c n i)

/-- Back substitution of `thomasAlgorithm`, indexed from the last unknown:
`thomasXRev j` is `x[n - 1 - j]`. -/
def thomasXRev (a b c d : ℕ → α) (n : ℕ) : ℕ → α
  | 0 => thomasDP a b c d n (n - 1)
  | j + 1 =>
      thomasDP a b c d n (n - 1 - (j + 1)) -
        thomasCP a b c n (n - 1 - (j + 1)) * thomasXRev a b c d n j

/-- `thomasAlgorithm(a, b, c, d)[i]` for a system of `n` unknowns. -/
def thomasAlgorithm (a b c d : ℕ → α) (n : ℕ) (i : ℕ) : α :=
  thomasXRev a b c d n (n - 1 - i)

/-- Main diagonal of the spline tangent system: `b[0] = b[N-1] = 2`, interior
entries `4` (`N` = number of knots). -/
def splineB (N : ℕ) (i : ℕ) : α := if i = 0 ∨ i = N - 1 then 2 else 4

/-- Right-hand side of the spline tangent system built by `CubicSpline.solve`
from one coordinate axis `p` of the knots. -/
def splineRHS (p : ℕ → α) (N : ℕ) (i : ℕ) : α :=
  if i = 0 then 3 * (p 1 - p 0)
  else if i = N - 1 then 3 * (p (N - 1) - p (N - 2))
  else 3 * (p (i + 1) - p (i - 1))

/-- The per-axis knot tangents `D` solved for by `CubicSpline.solve`:
`thomasAlgorithm` applied to the system with lower/upper diagonals `1`,
main diagonal `splineB`, and right-hand side `splineRHS`. -/
def splineTangents (p : ℕ → α) (N : ℕ) : ℕ → α :=
  thomasAlgorithm (fun _ => 1) (splineB N) (fun _ => 1) (splineRHS p N) N

/-- One cubic Bezier piece `{p1, cp1, cp2, p2}`. -/
structure BezierSeg (α : Type) where
  p1 : Point α
  cp1 : Point α
  cp2 : Point α
  p2 : Point α
deriving DecidableEq, Repr

/-- Coordinate accessor for a knot list (JavaScript `this.points[i].x`). -/
def coordX (ps : List (Point α)) (k : ℕ) : α := (ps.getD k ⟨0, 0⟩).x

/-- Coordinate accessor for a knot list (JavaScript `this.points[i].y`). -/
def coordY (ps : List (Point α)) (k : ℕ) : α := (ps.getD k ⟨0, 0⟩).y

/-- The `bezierPoints` array built by the `CubicSpline` constructor: empty for
fewer than 2 knots (`solve` is only called when `points.length > 1`),
otherwise one piece per inter-knot span with `cp1 = P_i + D_i/3` and
`cp2 = P_{i+1} - D_{i+1}/3`. -/
def bezierPieces (ps : List (Point α)) : List (BezierSeg α) :=
  if 1 < ps.length then
    (List.range (ps.length - 1)).map fun i =>
      { p1 := ps.getD i ⟨0, 0⟩
        cp1 := ⟨coordX ps i + splineTangents (coordX ps) ps.length i / 3,
                coordY ps i + splineTangents (coordY ps) ps.length i / 3⟩
        cp2 := ⟨coordX ps (i + 1) -
                  splineTangents (coordX ps) ps.length (i + 1) / 3,
                coordY ps (i + 1) -
                  splineTangents (coordY ps) ps.length (i + 1) / 3⟩
        p2 := ps.getD (i + 1) ⟨0, 0⟩ }
  else []

/-- `MACCalculator.getBezierPoint(seg, t)`: the cubic Bezier point formula. -/
def getBezierPoint (seg : BezierSeg α) (t : α) : Point α :=
  let mt := 1 - t
  let mt2 := mt * mt
  let mt3 := mt * mt * mt
  let t2 := t * t
  let t3 := t * t * t
  ⟨mt3 * seg.p1.x + 3 * mt2 * t * seg.cp1.x + 3 * mt * t2 * seg.cp2.x +
      t3 * seg.p2.x,
   mt3 * seg.p1.y + 3 * mt2 * t * seg.cp1.y + 3 * mt * t2 * seg.cp2.y +
      t3 * seg.p2.y⟩

/-- A drawn curve segment: a `LINE` shape carrying its clicked points, or a
`SPLINE` shape (a `CubicSpline` instance, whose `bezierPoints` are derived
from its knots by the constructor). -/
inductive Shape (α : Type) where
  | line (points : List (Point α))
  | spline (points : List (Point α))
deriving DecidableEq, Repr

/-- `MACCalculator.sampleShape(shape, transform)`: a `LINE` contributes its
transformed vertices; a `SPLINE` contributes, per Bezier piece, the 11
parameter evaluations `t = i/10`, transformed.  (`shape.bezierPoints` is
always present — and truthy, even when empty — for `CubicSpline` instances.) -/
def sampleShape (transform : Point α → Point α) : Shape α → List (Point α)
  | .line pts => pts.map transform
  | .spline pts =>
      (bezierPieces pts).flatMap fun seg =>
        (List.range 11).map fun i => transform (getBezierPoint seg ((i : α) / 10))

end SplineDefs

/-! ## Symmetry-line coordinate transform (over `ℝ`) -/

/-- A symmetry line `{p1, p2}`. -/
structure SymmetryLine where
  p1 : Point ℝ
  p2 : Point ℝ

/-- `angle = Math.atan2(symDy, symDx)`: the argument of the complex number
`symDx + symDy*i`. -/
noncomputable def symAngle (s : SymmetryLine) : ℝ :=
  Complex.arg ⟨s.p2.x - s.p1.x, s.p2.y - s.p1.y⟩

/-- The forward `transform` closure of `calculate`: translate by `-p1`, then
rotate by `-angle`. -/
noncomputable def transformPt (s : SymmetryLine) (p : Point ℝ) : Point ℝ :=
  let tx := p.x - s.p1.x
  let ty := p.y - s.p1.y
  ⟨tx * Real.cos (-symAngle s) - ty * Real.sin (-symAngle s),
   tx * Real.sin (-symAngle s) + ty * Real.cos (-symAngle s)⟩

/-- The `invRotate` closure of `Workflow.runCalculation`: rotate by `+angle`,
then translate by `+p1`. -/
noncomputable def invRotatePt (s : SymmetryLine) (q : Point ℝ) : Point ℝ :=
  ⟨q.x * Real.cos (symAngle s) - q.y * Real.sin (symAngle s) + s.p1.x,
   q.x * Real.sin (symAngle s) + q.y * Real.cos (symAngle s) + s.p1.y⟩

end BWB

namespace BWB

/-! ## Lemmas about the integration loop -/

/-- The integration loop exits immediately when the current position is past
`maxY`. -/
lemma integLoop_exit (LE TE : List (Point ℚ)) (maxY dy y : ℚ) (fuel : ℕ)
    (acc : ℚ × ℚ × ℚ) (h : ¬ y ≤ maxY) :
    integLoop LE TE maxY dy fuel y acc = acc := by
  cases fuel with
  | zero => rfl
  | succ n => simp [integLoop, h]

/-- Splitting off the first term of a shifted range sum. -/
lemma sum_range_shift (G : ℕ → ℚ) (j n : ℕ) (h : j < n) :
    ∑ i ∈ Finset.range (n - j), G (j + i) =
      G j + ∑ i ∈ Finset.range (n - (j + 1)), G (j + 1 + i) := by
  have h1 : n - j = (n - (j + 1)) + 1 := by omega
  rw [h1, Finset.sum_range_succ']
  have h2 : (∑ i ∈ Finset.range (n - (j + 1)), G (j + (i + 1))) =
      ∑ i ∈ Finset.range (n - (j + 1)), G (j + 1 + i) :=
    Finset.sum_congr rfl fun i _ => congrArg G (by omega)
  rw [h2, Nat.add_zero]
  exact add_comm _ _

/-- Running the integration loop from `y = minY + j*dy` with positive `dy`
accumulates exactly the left-rectangle sums over the remaining
`1001 - j` sample positions. -/
lemma integLoop_sum (LE TE : List (Point ℚ)) (minY dy : ℚ) (hdy : 0 < dy) :
    ∀ (fuel j : ℕ) (a m c : ℚ), j ≤ 1001 → 1001 - j ≤ fuel →
    integLoop LE TE (minY + 1000 * dy) dy fuel (minY + (j : ℚ) * dy) (a, m, c) =
      (a + ∑ i ∈ Finset.range (1001 - j),
          chordAt LE TE (minY + ((j + i : ℕ) : ℚ) * dy) * dy,
       m + ∑ i ∈ Finset.range (1001 - j),
          |minY + ((j + i : ℕ) : ℚ) * dy| *
            (chordAt LE TE (minY + ((j + i : ℕ) : ℚ) * dy) * dy),
       c + ∑ i ∈ Finset.range (1001 - j),
          chordAt LE TE (minY + ((j + i : ℕ) : ℚ) * dy) *
            chordAt LE TE (minY + ((j + i : ℕ) : ℚ) * dy) * dy) := by
  intro fuel
  induction fuel with
  | zero =>
      intro j a m c hj hfuel
      have hj' : j = 1001 := by omega
      subst hj'
      simp [integLoop]
  | succ f ih =>
      intro j a m c hj hfuel
      by_cases hj1 : j = 1001
      · subst hj1
        have hcond : ¬ minY + (1001 : ℚ) * dy ≤ minY + 1000 * dy := by nlinarith
        rw [show ((1001 : ℕ) : ℚ) = (1001 : ℚ) by norm_num] at *
        rw [integLoop_exit _ _ _ _ _ _ _ hcond]
        simp
      · have hj' : j ≤ 1000 := by omega
        have hcond : minY + (j : ℚ) * dy ≤ minY + 1000 * dy := by
          have : (j : ℚ) ≤ 1000 := by exact_mod_cast hj'
          nlinarith
        rw [show integLoop LE TE (minY + 1000 * dy) dy (f + 1)
              (minY + (j : ℚ) * dy) (a, m, c) =
            integLoop LE TE (minY + 1000 * dy) dy f
              (minY + (j : ℚ) * dy + dy)
              (integStep LE TE dy (minY + (j : ℚ) * dy) (a, m, c))
          from by simp [integLoop, hcond]]
        have hy' : minY + (j : ℚ) * dy + dy = minY + ((j + 1 : ℕ) : ℚ) * dy := by
          push_cast; ring
        have hstep : integStep LE TE dy (minY + (j : ℚ) * dy) (a, m, c) =
            (a + chordAt LE TE (minY + (j : ℚ) * dy) * dy,
             m + |minY + (j : ℚ) * dy| *
                (chordAt LE TE (minY + (j : ℚ) * dy) * dy),
             c + chordAt LE TE (minY + (j : ℚ) * dy) *
                chordAt LE TE (minY + (j : ℚ) * dy) * dy) := by
          simp [integStep, chordAt]
        rw [hy', hstep]
        rw [ih (j + 1) _ _ _ (by omega) (by omega)]
        rw [sum_range_shift
            (fun k => chordAt LE TE (minY + (k : ℚ) * dy) * dy) j 1001 (by omega),
          sum_range_shift
            (fun k => |minY + (k : ℚ) * dy| *
              (chordAt LE TE (minY + (k : ℚ) * dy) * dy)) j 1001 (by omega),
          sum_range_shift
            (fun k => chordAt LE TE (minY + (k : ℚ) * dy) *
              chordAt LE TE (minY + (k : ℚ) * dy) * dy) j 1001 (by omega)]
        simp only [Prod.mk.injEq]
        refine ⟨by ring, by ring, by ring⟩

/-- With a genuinely increasing span interval, `dy` is positive. -/
lemma dyStep_pos (LE TE : List (Point ℚ)) (h : minYOf LE TE < maxYOf LE TE) :
    0 < dyStep LE TE := by
  unfold dyStep
  have : 0 < maxYOf LE TE - minYOf LE TE := sub_pos.2 h
  positivity

/-- `maxY` is reached from `minY` in exactly 1000 steps of `dy`. -/
lemma maxYOf_eq_step (LE TE : List (Point ℚ)) :
    maxYOf LE TE = minYOf LE TE + 1000 * dyStep LE TE := by
  unfold dyStep
  ring

/-- With a genuinely increasing span interval, the accumulated integrator
triple equals the left-rectangle sums, in the exact operand shapes produced
by `integStep`. -/
lemma integAccums_eq_raw (LE TE : List (Point ℚ))
    (h : minYOf LE TE < maxYOf LE TE) :
    integAccums LE TE =
      (∑ i ∈ Finset.range 1001,
          chordAt LE TE (minYOf LE TE + (i : ℚ) * dyStep LE TE) * dyStep LE TE,
       ∑ i ∈ Finset.range 1001,
          |minYOf LE TE + (i : ℚ) * dyStep LE TE| *
            (chordAt LE TE (minYOf LE TE + (i : ℚ) * dyStep LE TE) * dyStep LE TE),
       ∑ i ∈ Finset.range 1001,
          chordAt LE TE (minYOf LE TE + (i : ℚ) * dyStep LE TE) *
            chordAt LE TE (minYOf LE TE + (i : ℚ) * dyStep LE TE) *
              dyStep LE TE) := by
  have hdy : 0 < dyStep LE TE := dyStep_pos LE TE h
  have hsum := integLoop_sum LE TE (minYOf LE TE) (dyStep LE TE) hdy 1002 0 0 0 0
    (by omega) (by omega)
  simp only [Nat.cast_zero, zero_mul, add_zero, Nat.sub_zero, Nat.zero_add,
    zero_add] at hsum
  unfold integAccums
  rw [maxYOf_eq_step, hsum]

/-- The accumulated area equals the specified left-rectangle area sum. -/
lemma integAccums_area (LE TE : List (Point ℚ))
    (h : minYOf LE TE < maxYOf LE TE) :
    (integAccums LE TE).1 = specArea LE TE := by
  rw [integAccums_eq_raw LE TE h]
  unfold specArea samplePt
  rfl

/-- The accumulated spanwise moment equals the specified moment sum. -/
lemma integAccums_moment (LE TE : List (Point ℚ))
    (h : minYOf LE TE < maxYOf LE TE) :
    (integAccums LE TE).2.1 = specMoment LE TE := by
  rw [integAccums_eq_raw LE TE h]
  unfold specMoment samplePt
  dsimp only
  exact Finset.sum_congr rfl fun i _ => by ring

/-- The accumulated chord-squared integral equals the specified sum. -/
lemma integAccums_csq (LE TE : List (Point ℚ))
    (h : minYOf LE TE < maxYOf LE TE) :
    (integAccums LE TE).2.2 = specCsq LE TE := by
  rw [integAccums_eq_raw LE TE h]
  unfold specCsq samplePt
  dsimp only
  exact Finset.sum_congr rfl fun i _ => by ring

/-! ## Branch lemmas for `calculate` -/

/-- `calculate` raises `InsufficientPoints` as soon as either profile is
shorter than 2 samples. -/
lemma calculate_insufficient (LE TE : List (Point ℚ)) (W : ℚ)
    (h : LE.length < 2 ∨ TE.length < 2) :
    calculate LE TE W = .error .insufficientPoints := by
  simp [calculate, h]

/-- `calculate` raises `ZeroSpan` when both profiles are long enough and
`dy = 0`. -/
lemma calculate_zeroSpan (LE TE : List (Point ℚ)) (W : ℚ)
    (hLE : 2 ≤ LE.length) (hTE : 2 ≤ TE.length) (hdy : dyStep LE TE = 0) :
    calculate LE TE W = .error .zeroSpan := by
  have hnot : ¬(LE.length < 2 ∨ TE.length < 2) := by omega
  simp [calculate, hnot, hdy]

/-- `calculate` raises `ZeroArea` when the checks pass but the accumulated
area is zero. -/
lemma calculate_zeroArea (LE TE : List (Point ℚ)) (W : ℚ)
    (hLE : 2 ≤ LE.length) (hTE : 2 ≤ TE.length) (hdy : dyStep LE TE ≠ 0)
    (harea : (integAccums LE TE).1 = 0) :
    calculate LE TE W = .error .zeroArea := by
  have hnot : ¬(LE.length < 2 ∨ TE.length < 2) := by omega
  simp [calculate, hnot, hdy, harea]

/-- On the success path `calculate` returns exactly the record built from the
accumulated integrals, the visual-Y search and the scale factor. -/
lemma calculate_ok_shape (LE TE : List (Point ℚ)) (W : ℚ)
    (hLE : 2 ≤ LE.length) (hTE : 2 ≤ TE.length) (hdy : dyStep LE TE ≠ 0)
    (harea : (integAccums LE TE).1 ≠ 0) :
    calculate LE TE W = .ok
      { MAC := (integAccums LE TE).2.2 / (integAccums LE TE).1 *
          scaleFactorOf LE TE W
        Area := (integAccums LE TE).1 *
          (scaleFactorOf LE TE W * scaleFactorOf LE TE W) *
          (if minYOf LE TE * maxYOf LE TE < 0 then 1 else 2)
        MAC_pixels := (integAccums LE TE).2.2 / (integAccums LE TE).1
        Y_mac_pixels := visualY LE TE
        X_le_mac_pixels := interpolateX LE (visualY LE TE)
        scaleFactor := scaleFactorOf LE TE W } := by
  have hnot : ¬(LE.length < 2 ∨ TE.length < 2) := by omega
  simp [calculate, hnot, hdy, harea, visualY, scaleFactorOf]

/-! ## Evaluation of `interpolateX` on two-sample profiles -/

/-- Closed form of `interpolateX` on a two-sample profile. -/
lemma interpolateX_pair (px py qx qy y : ℚ) :
    interpolateX [⟨px, py⟩, ⟨qx, qy⟩] y =
      if y < py ∨ y > qy then
        if |y - py| < 1 / 1000000000 then px
        else if |y - qy| < 1 / 1000000000 then qx
        else 0
      else
        if py ≤ y ∧ qy ≥ y then
          if qy - py = 0 then px else px + (y - py) / (qy - py) * (qx - px)
        else qx := by
  by_cases h1 : y < py ∨ y > qy
  · simp [interpolateX, h1]
  · by_cases h2 : py ≤ y ∧ qy ≥ y
    · simp [interpolateX, interpLoop, h1, h2]
    · simp [interpolateX, interpLoop, h1, h2]

/-- A vertical two-sample profile spanning `[0, 10]` at chordwise position
`x0` interpolates to `x0` everywhere inside the span. -/
lemma interp_vert (x0 y : ℚ) (h0 : 0 ≤ y) (h10 : y ≤ 10) :
    interpolateX [⟨x0, 0⟩, ⟨x0, 10⟩] y = x0 := by
  rw [interpolateX_pair]
  rw [if_neg (by push_neg; exact ⟨not_lt.1 (by linarith), by linarith⟩)]
  rw [if_pos ⟨h0, by exact h10⟩]
  rw [if_neg (by norm_num)]
  ring

/-- The accumulated area for the constant-chord scenario
(`LE` at `x = 0`, `TE` at `x = 3`, both spanning `[0, 10]`). -/
lemma areaA :
    (integAccums [⟨0, 0⟩, ⟨0, 10⟩] [⟨3, 0⟩, ⟨3, 10⟩]).1 = 3003 / 100 := by
  have hspan : minYOf [⟨0, 0⟩, ⟨0, 10⟩] [⟨3, 0⟩, ⟨3, 10⟩] <
      maxYOf [⟨0, 0⟩, ⟨0, 10⟩] [⟨3, 0⟩, ⟨3, 10⟩] := by
    with_unfolding_all decide
  rw [integAccums_area _ _ hspan]
  unfold specArea
  have hdy : dyStep [⟨0, 0⟩, ⟨0, 10⟩] [⟨3, 0⟩, ⟨3, 10⟩] = 1 / 100 := by
    with_unfolding_all decide
  have hmin : minYOf [⟨0, 0⟩, ⟨0, 10⟩] [⟨3, 0⟩, ⟨3, 10⟩] = 0 := by
    with_unfolding_all decide
  have hterm : ∀ k ∈ Finset.range 1001,
      chordAt [⟨0, 0⟩, ⟨0, 10⟩] [⟨3, 0⟩, ⟨3, 10⟩]
          (samplePt [⟨0, 0⟩, ⟨0, 10⟩] [⟨3, 0⟩, ⟨3, 10⟩] k) *
        dyStep [⟨0, 0⟩, ⟨0, 10⟩] [⟨3, 0⟩, ⟨3, 10⟩] = 3 / 100 := by
    intro k hk
    have hk' : (k : ℚ) ≤ 1000 := by
      exact_mod_cast Nat.lt_succ_iff.1 (Finset.mem_range.1 hk)
    have hk0 : (0 : ℚ) ≤ (k : ℚ) := by positivity
    have hy : samplePt [⟨0, 0⟩, ⟨0, 10⟩] [⟨3, 0⟩, ⟨3, 10⟩] k = (k : ℚ) / 100 := by
      unfold samplePt
      rw [hdy, hmin]
      ring
    rw [hy, hdy]
    unfold chordAt
    rw [interp_vert 0 _ (by positivity) (by linarith),
      interp_vert 3 _ (by positivity) (by linarith)]
    norm_num
  rw [Finset.sum_congr rfl hterm]
  simp [Finset.sum_const, Finset.card_range]
  norm_num

/-- The spec-side area sum for the non-overlapping scenario
(`LE` spanning `[0,1]` at `x = 0`, `TE` spanning `[5,6]` at `x = 3`):
only the `k = 0` sample contributes. -/
lemma specAreaB :
    specArea [⟨0, 0⟩, ⟨0, 1⟩] [⟨3, 5⟩, ⟨3, 6⟩] = -3 / 250 := by
  unfold specArea
  have hdy : dyStep [⟨0, 0⟩, ⟨0, 1⟩] [⟨3, 5⟩, ⟨3, 6⟩] = -1 / 250 := by
    with_unfolding_all decide
  have hmin : minYOf [⟨0, 0⟩, ⟨0, 1⟩] [⟨3, 5⟩, ⟨3, 6⟩] = 5 := by
    with_unfolding_all decide
  rw [Finset.sum_eq_single_of_mem 0 (Finset.mem_range.2 (by norm_num))]
  · have h0 : samplePt [⟨0, 0⟩, ⟨0, 1⟩] [⟨3, 5⟩, ⟨3, 6⟩] 0 = 5 := by
      unfold samplePt
      rw [hdy, hmin]
      norm_num
    have hTE : interpolateX [⟨3, 5⟩, ⟨3, 6⟩] (5 : ℚ) = 3 := by
      rw [interpolateX_pair]
      norm_num
    have hLE : interpolateX [⟨0, 0⟩, ⟨0, 1⟩] (5 : ℚ) = 0 := by
      rw [interpolateX_pair]
      norm_num
    rw [h0, hdy]
    unfold chordAt
    rw [hTE, hLE]
    norm_num
  · intro k hk hk0
    have hk1 : 1 ≤ k := Nat.one_le_iff_ne_zero.2 hk0
    have hk2 : k ≤ 1000 := Nat.lt_succ_iff.1 (Finset.mem_range.1 hk)
    have hq1 : (1 : ℚ) ≤ (k : ℚ) := by exact_mod_cast hk1
    have hq2 : (k : ℚ) ≤ 1000 := by exact_mod_cast hk2
    have hy : samplePt [⟨0, 0⟩, ⟨0, 1⟩] [⟨3, 5⟩, ⟨3, 6⟩] k = 5 - (k : ℚ) / 250 := by
      unfold samplePt
      rw [hdy, hmin]
      ring
    have hTE : interpolateX [⟨3, 5⟩, ⟨3, 6⟩] (5 - (k : ℚ) / 250) = 0 := by
      rw [interpolateX_pair]
      rw [if_pos (Or.inl (by linarith : (5 : ℚ) - (k : ℚ) / 250 < 5))]
      have habs1 : |(5 : ℚ) - (k : ℚ) / 250 - 5| = (k : ℚ) / 250 := by
        rw [show (5 : ℚ) - (k : ℚ) / 250 - 5 = -((k : ℚ) / 250) by ring, abs_neg,
          abs_of_nonneg (by positivity)]
      have habs2 : |(5 : ℚ) - (k : ℚ) / 250 - 6| = 1 + (k : ℚ) / 250 := by
        rw [show (5 : ℚ) - (k : ℚ) / 250 - 6 = -(1 + (k : ℚ) / 250) by ring, abs_neg,
          abs_of_nonneg (by positivity)]
      rw [if_neg (by rw [habs1]; intro hcon; nlinarith),
        if_neg (by rw [habs2]; intro hcon; nlinarith)]
    have hLE : interpolateX [⟨0, 0⟩, ⟨0, 1⟩] (5 - (k : ℚ) / 250) = 0 := by
      by_cases hk1000 : k = 1000
      · subst hk1000
        rw [show (5 : ℚ) - ((1000 : ℕ) : ℚ) / 250 = 1 by push_cast; norm_num]
        rw [interpolateX_pair]
        norm_num
      · have hk3 : k ≤ 999 := by omega
        have hq3 : (k : ℚ) ≤ 999 := by exact_mod_cast hk3
        have hygt : (5 : ℚ) - (k : ℚ) / 250 > 1 := by nlinarith
        rw [interpolateX_pair]
        rw [if_pos (Or.inr hygt)]
        have habs1 : |(5 : ℚ) - (k : ℚ) / 250 - 0| = 5 - (k : ℚ) / 250 := by
          rw [abs_of_nonneg (by nlinarith)]
          ring
        have habs2 : |(5 : ℚ) - (k : ℚ) / 250 - 1| = 4 - (k : ℚ) / 250 := by
          rw [abs_of_nonneg (by nlinarith)]
          ring
        rw [if_neg (by rw [habs1]; intro hcon; nlinarith),
          if_neg (by rw [habs2]; intro hcon; nlinarith)]
    unfold chordAt
    rw [hy, hTE, hLE]
    norm_num

/-! ## Claim theorems: integrator (C1, C2, C3) -/

/-- **C1** (amended: `maxY - minY` positive).  For profiles with at least two
samples each whose span interval `[minY, maxY]` has positive length, the
integration entry point accumulates exactly the left-rectangle sums
`area = ∑ chord*dy`, `momentY = ∑ |y|*chord*dy`,
`chordSqIntegral = ∑ chord²*dy` over the 1001 inclusive sample positions
`minY + k*dy`, `dy = (maxY-minY)/1000`; and when the accumulated area is
nonzero it returns a result with `MAC = chordSqIntegral / area`, the
integrator-stage `Y_mac` being `momentY / area`. -/
theorem C1_integration_accumulation (LE TE : List (Point ℚ)) (W : ℚ)
    (hLE : 2 ≤ LE.length) (hTE : 2 ≤ TE.length)
    (hspan : minYOf LE TE < maxYOf LE TE) :
    (integAccums LE TE).1 = specArea LE TE ∧
    (integAccums LE TE).2.1 = specMoment LE TE ∧
    (integAccums LE TE).2.2 = specCsq LE TE ∧
    (specArea LE TE ≠ 0 →
      ∃ r, calculate LE TE W = .ok r ∧
        r.MAC_pixels = specCsq LE TE / specArea LE TE ∧
        yMacCentroid LE TE = specMoment LE TE / specArea LE TE) := by
  have ha := integAccums_area LE TE hspan
  have hm := integAccums_moment LE TE hspan
  have hc := integAccums_csq LE TE hspan
  refine ⟨ha, hm, hc, fun hA => ?_⟩
  have hdy : dyStep LE TE ≠ 0 := ne_of_gt (dyStep_pos LE TE hspan)
  have harea : (integAccums LE TE).1 ≠ 0 := by rw [ha]; exact hA
  refine ⟨_, calculate_ok_shape LE TE W hLE hTE hdy harea, ?_, ?_⟩
  · show (integAccums LE TE).2.2 / (integAccums LE TE).1 =
      specCsq LE TE / specArea LE TE
    rw [ha, hc]
  · unfold yMacCentroid
    rw [ha, hm]

/-- Witness for C1 at the constant-chord scenario. -/
theorem C1_integration_accumulation_witness :
    2 ≤ ([⟨0, 0⟩, ⟨0, 10⟩] : List (Point ℚ)).length ∧
    minYOf [⟨0, 0⟩, ⟨0, 10⟩] [⟨3, 0⟩, ⟨3, 10⟩] <
      maxYOf [⟨0, 0⟩, ⟨0, 10⟩] [⟨3, 0⟩, ⟨3, 10⟩] ∧
    ((integAccums [⟨0, 0⟩, ⟨0, 10⟩] [⟨3, 0⟩, ⟨3, 10⟩]).1 =
        specArea [⟨0, 0⟩, ⟨0, 10⟩] [⟨3, 0⟩, ⟨3, 10⟩] ∧
      (integAccums [⟨0, 0⟩, ⟨0, 10⟩] [⟨3, 0⟩, ⟨3, 10⟩]).2.1 =
        specMoment [⟨0, 0⟩, ⟨0, 10⟩] [⟨3, 0⟩, ⟨3, 10⟩] ∧
      (integAccums [⟨0, 0⟩, ⟨0, 10⟩] [⟨3, 0⟩, ⟨3, 10⟩]).2.2 =
        specCsq [⟨0, 0⟩, ⟨0, 10⟩] [⟨3, 0⟩, ⟨3, 10⟩] ∧
      (specArea [⟨0, 0⟩, ⟨0, 10⟩] [⟨3, 0⟩, ⟨3, 10⟩] ≠ 0 →
        ∃ r, calculate [⟨0, 0⟩, ⟨0, 10⟩] [⟨3, 0⟩, ⟨3, 10⟩] 20 = .ok r ∧
          r.MAC_pixels = specCsq [⟨0, 0⟩, ⟨0, 10⟩] [⟨3, 0⟩, ⟨3, 10⟩] /
            specArea [⟨0, 0⟩, ⟨0, 10⟩] [⟨3, 0⟩, ⟨3, 10⟩] ∧
          yMacCentroid [⟨0, 0⟩, ⟨0, 10⟩] [⟨3, 0⟩, ⟨3, 10⟩] =
            specMoment [⟨0, 0⟩, ⟨0, 10⟩] [⟨3, 0⟩, ⟨3, 10⟩] /
              specArea [⟨0, 0⟩, ⟨0, 10⟩] [⟨3, 0⟩, ⟨3, 10⟩])) :=
  ⟨by decide, by with_unfolding_all decide,
    C1_integration_accumulation _ _ 20 (by decide) (by decide)
      (by with_unfolding_all decide)⟩

/-- **C1, counterexample to the claim as stated**: with non-overlapping span
intervals, `maxY - minY` is nonzero (negative), the claim's accumulated sums
are nonzero, yet the loop never executes — the actual accumulated area is `0`
and the call aborts with `ZeroArea` instead of returning a `MACResult`. -/
theorem C1_counterexample :
    2 ≤ ([⟨0, 0⟩, ⟨0, 1⟩] : List (Point ℚ)).length ∧
    2 ≤ ([⟨3, 5⟩, ⟨3, 6⟩] : List (Point ℚ)).length ∧
    maxYOf [⟨0, 0⟩, ⟨0, 1⟩] [⟨3, 5⟩, ⟨3, 6⟩] -
        minYOf [⟨0, 0⟩, ⟨0, 1⟩] [⟨3, 5⟩, ⟨3, 6⟩] ≠ 0 ∧
    specArea [⟨0, 0⟩, ⟨0, 1⟩] [⟨3, 5⟩, ⟨3, 6⟩] ≠ 0 ∧
    (integAccums [⟨0, 0⟩, ⟨0, 1⟩] [⟨3, 5⟩, ⟨3, 6⟩]).1 = 0 ∧
    calculate [⟨0, 0⟩, ⟨0, 1⟩] [⟨3, 5⟩, ⟨3, 6⟩] 20 = .error .zeroArea := by
  refine ⟨by decide, by decide, by with_unfolding_all decide, ?_, ?_, ?_⟩
  · rw [specAreaB]
    norm_num
  · with_unfolding_all decide
  · exact calculate_zeroArea _ _ _ (by decide) (by decide)
      (by with_unfolding_all decide) (by with_unfolding_all decide)

/-- **C2**: the three failure modes of the integration entry point: fewer than
2 samples in either profile gives `InsufficientPoints`; both long enough and
`maxY - minY = 0` gives `ZeroSpan`; checks passed but zero accumulated area
gives `ZeroArea`; every failure aborts with an error and no `MACResult`. -/
theorem C2_error_taxonomy :
    (∀ (LE TE : List (Point ℚ)) (W : ℚ), LE.length < 2 ∨ TE.length < 2 →
      calculate LE TE W = .error .insufficientPoints) ∧
    (∀ (LE TE : List (Point ℚ)) (W : ℚ), 2 ≤ LE.length → 2 ≤ TE.length →
      maxYOf LE TE - minYOf LE TE = 0 → calculate LE TE W = .error .zeroSpan) ∧
    (∀ (LE TE : List (Point ℚ)) (W : ℚ), 2 ≤ LE.length → 2 ≤ TE.length →
      dyStep LE TE ≠ 0 → (integAccums LE TE).1 = 0 →
      calculate LE TE W = .error .zeroArea) ∧
    (∀ (LE TE : List (Point ℚ)) (W : ℚ) (e : CalcError),
      calculate LE TE W = .error e → ∀ r, calculate LE TE W ≠ .ok r) := by
  refine ⟨fun LE TE W h => calculate_insufficient LE TE W h,
    fun LE TE W hLE hTE h => calculate_zeroSpan LE TE W hLE hTE ?_,
    fun LE TE W hLE hTE hdy harea =>
      calculate_zeroArea LE TE W hLE hTE hdy harea,
    fun LE TE W e he r hok => ?_⟩
  · unfold dyStep
    rw [h]
    norm_num
  · rw [he] at hok
    exact Except.noConfusion hok

/-- Witness for C2: one concrete input per failure mode. -/
theorem C2_error_taxonomy_witness :
    calculate [(⟨0, 0⟩ : Point ℚ)] [] 5 = .error .insufficientPoints ∧
    calculate [(⟨0, 0⟩ : Point ℚ), ⟨1, 0⟩] [⟨0, 0⟩, ⟨2, 0⟩] 5 =
      .error .zeroSpan ∧
    calculate [(⟨0, 0⟩ : Point ℚ), ⟨0, 1⟩] [⟨0, 7⟩, ⟨0, 8⟩] 5 =
      .error .zeroArea :=
  ⟨C2_error_taxonomy.1 _ _ _ (by decide),
    C2_error_taxonomy.2.1 _ _ _ (by decide) (by decide)
      (by with_unfolding_all decide),
    C2_error_taxonomy.2.2.1 _ _ _ (by decide) (by decide)
      (by with_unfolding_all decide) (by with_unfolding_all decide)⟩

/-- **C3** (amended): when the two profiles' span intervals do not overlap
(`minY = max` of first span values exceeds `maxY = min` of last span values),
the integration loop never runs, the accumulated area is zero, and the entry
point raises `ZeroArea` — not `ZeroSpan` as the claim stated. -/
theorem C3_nonoverlap_zeroArea (LE TE : List (Point ℚ)) (W : ℚ)
    (hLE : 2 ≤ LE.length) (hTE : 2 ≤ TE.length)
    (hno : maxYOf LE TE < minYOf LE TE) :
    calculate LE TE W = .error .zeroArea := by
  have hdy : dyStep LE TE ≠ 0 := by
    unfold dyStep
    exact ne_of_lt (div_neg_of_neg_of_pos (sub_neg.2 hno) (by norm_num))
  have harea : (integAccums LE TE).1 = 0 := by
    unfold integAccums
    rw [integLoop_exit _ _ _ _ _ _ _ (not_le.2 hno)]
  exact calculate_zeroArea LE TE W hLE hTE hdy harea

/-- Witness for the amended C3. -/
theorem C3_nonoverlap_zeroArea_witness :
    2 ≤ ([⟨1, 0⟩, ⟨2, 1⟩] : List (Point ℚ)).length ∧
    maxYOf [⟨1, 0⟩, ⟨2, 1⟩] [⟨4, 9⟩, ⟨5, 10⟩] <
      minYOf [⟨1, 0⟩, ⟨2, 1⟩] [⟨4, 9⟩, ⟨5, 10⟩] ∧
    calculate [⟨1, 0⟩, ⟨2, 1⟩] [⟨4, 9⟩, ⟨5, 10⟩] 7 = .error .zeroArea :=
  ⟨by decide, by with_unfolding_all decide,
    C3_nonoverlap_zeroArea _ _ 7 (by decide) (by decide)
      (by with_unfolding_all decide)⟩

/-- **C3, counterexample to the claim as stated**: non-overlapping spans raise
`ZeroArea`, not `ZeroSpan`. -/
theorem C3_counterexample :
    2 ≤ ([⟨0, 2⟩, ⟨0, 3⟩] : List (Point ℚ)).length ∧
    2 ≤ ([⟨1, 8⟩, ⟨1, 9⟩] : List (Point ℚ)).length ∧
    maxYOf [⟨0, 2⟩, ⟨0, 3⟩] [⟨1, 8⟩, ⟨1, 9⟩] <
      minYOf [⟨0, 2⟩, ⟨0, 3⟩] [⟨1, 8⟩, ⟨1, 9⟩] ∧
    calculate [⟨0, 2⟩, ⟨0, 3⟩] [⟨1, 8⟩, ⟨1, 9⟩] 12 = .error .zeroArea ∧
    calculate [⟨0, 2⟩, ⟨0, 3⟩] [⟨1, 8⟩, ⟨1, 9⟩] 12 ≠ .error .zeroSpan := by
  have hz : calculate [⟨0, 2⟩, ⟨0, 3⟩] [⟨1, 8⟩, ⟨1, 9⟩] 12 =
      .error .zeroArea :=
    C3_nonoverlap_zeroArea _ _ 12 (by decide) (by decide)
      (by with_unfolding_all decide)
  refine ⟨by decide, by decide, by with_unfolding_all decide, hz, ?_⟩
  rw [hz]
  intro hcon
  have : CalcError.zeroArea = CalcError.zeroSpan := by
    injection hcon
  exact CalcError.noConfusion this

/-! ## Claim theorems: scaling safety (C10) and scaling (C8) -/

/-- The running maximum in `getMaxDist` never decreases below its seed. -/
lemma foldl_maxDist_ge_init (l : List (Point ℚ)) (a : ℚ) :
    a ≤ l.foldl (fun m p => max m |p.y|) a := by
  induction l generalizing a with
  | nil => exact le_refl a
  | cons p t ih => exact le_trans (le_max_left a |p.y|) (ih (max a |p.y|))

/-- Every sample's `|y|` is bounded by the `getMaxDist` fold. -/
lemma le_foldl_maxDist (l : List (Point ℚ)) (a : ℚ) (p : Point ℚ) (hp : p ∈ l) :
    |p.y| ≤ l.foldl (fun m p => max m |p.y|) a := by
  induction l generalizing a with
  | nil => cases hp
  | cons q t ih =>
      rcases List.mem_cons.1 hp with h | h
      · subst h
        exact le_trans (le_max_right a |p.y|)
          (foldl_maxDist_ge_init t (max a |p.y|))
      · exact ih _ h

/-- `getLastD` of a nonempty list is a member of it. -/
lemma getLastD_mem (l : List (Point ℚ)) (d : Point ℚ) (h : l ≠ []) :
    l.getLastD d ∈ l := by
  induction l generalizing d with
  | nil => exact absurd rfl h
  | cons p t ih =>
      cases t with
      | nil => simp [List.getLastD]
      | cons q s =>
          rw [List.getLastD_cons]
          exact List.mem_cons_of_mem p (ih q (by simp))

/-- If the `getMaxDist` fold of a list is nonpositive, every sample lies on
the symmetry axis (`y = 0`). -/
lemma maxDist_zero_all_y (l : List (Point ℚ)) (hl : getMaxDist l ≤ 0) :
    ∀ p ∈ l, p.y = 0 := by
  intro p hp
  have h1 : |p.y| ≤ getMaxDist l := le_foldl_maxDist l 0 p hp
  exact abs_nonpos_iff.1 (le_trans h1 hl)

/-- **C10**: whenever the zero-span check passes (`dy ≠ 0`) on profiles with
at least 2 samples each, the maximum absolute span distance is strictly
positive, so the scale-factor division never divides by zero. -/
theorem C10_maxDist_positive (LE TE : List (Point ℚ))
    (hLE : 2 ≤ LE.length) (hTE : 2 ≤ TE.length) (hdy : dyStep LE TE ≠ 0) :
    0 < max (getMaxDist LE) (getMaxDist TE) := by
  by_contra hmax
  push_neg at hmax
  have h1 : getMaxDist LE ≤ 0 := le_trans (le_max_left _ _) hmax
  have h2 : getMaxDist TE ≤ 0 := le_trans (le_max_right _ _) hmax
  apply hdy
  unfold dyStep
  cases LE with
  | nil => simp at hLE
  | cons p t =>
      cases TE with
      | nil => simp at hTE
      | cons q s =>
          have hminLE : getMinY (p :: t) = 0 :=
            maxDist_zero_all_y _ h1 p (List.mem_cons_self p t)
          have hminTE : getMinY (q :: s) = 0 :=
            maxDist_zero_all_y _ h2 q (List.mem_cons_self q s)
          have hmaxLE : getMaxY (p :: t) = 0 :=
            maxDist_zero_all_y _ h1 _ (getLastD_mem _ ⟨0, 0⟩ (by simp))
          have hmaxTE : getMaxY (q :: s) = 0 :=
            maxDist_zero_all_y _ h2 _ (getLastD_mem _ ⟨0, 0⟩ (by simp))
          unfold minYOf maxYOf
          rw [hminLE, hminTE, hmaxLE, hmaxTE]
          norm_num

/-- Witness for C10. -/
theorem C10_maxDist_positive_witness :
    2 ≤ ([⟨0, 1⟩, ⟨0, 2⟩] : List (Point ℚ)).length ∧
    dyStep [⟨0, 1⟩, ⟨0, 2⟩] [⟨5, 1⟩, ⟨5, 3⟩] ≠ 0 ∧
    0 < max (getMaxDist [⟨0, 1⟩, ⟨0, 2⟩]) (getMaxDist [⟨5, 1⟩, ⟨5, 3⟩]) :=
  ⟨by decide, by with_unfolding_all decide,
    C10_maxDist_positive _ _ (by decide) (by decide)
      (by with_unfolding_all decide)⟩

/-- **C8**: on every successful invocation with positive wingspan,
`scaleFactor = (realWingspan/2) / maxDist` with `maxDist` the maximum of
`|y|` over the samples of both profiles, the returned real `MAC` is
`MAC_pixels * scaleFactor`, and the returned real area is
`area_pixels * scaleFactor²` times `1` when `minY*maxY < 0` (interval
straddles zero) and `2` otherwise. -/
theorem C8_unit_scaling (LE TE : List (Point ℚ)) (W : ℚ) (hW : 0 < W)
    (hLE : 2 ≤ LE.length) (hTE : 2 ≤ TE.length) (hdy : dyStep LE TE ≠ 0)
    (harea : (integAccums LE TE).1 ≠ 0) :
    ∃ r, calculate LE TE W = .ok r ∧
      r.scaleFactor = W / 2 / max (getMaxDist LE) (getMaxDist TE) ∧
      r.MAC = r.MAC_pixels * r.scaleFactor ∧
      r.Area = (integAccums LE TE).1 * (r.scaleFactor * r.scaleFactor) *
        (if minYOf LE TE * maxYOf LE TE < 0 then 1 else 2) :=
  ⟨_, calculate_ok_shape LE TE W hLE hTE hdy harea, rfl, rfl, rfl⟩

/-- Witness for C8 at the constant-chord scenario. -/
theorem C8_unit_scaling_witness :
    (0 : ℚ) < 20 ∧
    (integAccums [⟨0, 0⟩, ⟨0, 10⟩] [⟨3, 0⟩, ⟨3, 10⟩]).1 ≠ 0 ∧
    (∃ r, calculate [⟨0, 0⟩, ⟨0, 10⟩] [⟨3, 0⟩, ⟨3, 10⟩] 20 = .ok r ∧
      r.scaleFactor = 20 / 2 /
        max (getMaxDist [⟨0, 0⟩, ⟨0, 10⟩]) (getMaxDist [⟨3, 0⟩, ⟨3, 10⟩]) ∧
      r.MAC = r.MAC_pixels * r.scaleFactor ∧
      r.Area = (integAccums [⟨0, 0⟩, ⟨0, 10⟩] [⟨3, 0⟩, ⟨3, 10⟩]).1 *
        (r.scaleFactor * r.scaleFactor) *
        (if minYOf [⟨0, 0⟩, ⟨0, 10⟩] [⟨3, 0⟩, ⟨3, 10⟩] *
            maxYOf [⟨0, 0⟩, ⟨0, 10⟩] [⟨3, 0⟩, ⟨3, 10⟩] < 0 then 1 else 2)) :=
  ⟨by norm_num, by rw [areaA]; norm_num,
    C8_unit_scaling _ _ 20 (by norm_num) (by decide) (by decide)
      (by with_unfolding_all decide) (by rw [areaA]; norm_num)⟩

/-! ## Claim theorems: coordinate transform (C7) and degenerate segments (C9) -/

/-- **C7**: for any symmetry line with distinct endpoints, applying the
forward transform and then the inverse transform returns every point exactly
(hence within `1e-9` in each coordinate). -/
theorem C7_transform_roundtrip (s : SymmetryLine) (hs : s.p1 ≠ s.p2)
    (p : Point ℝ) :
    |(invRotatePt s (transformPt s p)).x - p.x| ≤ 1 / 1000000000 ∧
    |(invRotatePt s (transformPt s p)).y - p.y| ≤ 1 / 1000000000 := by
  have hpyth := Real.sin_sq_add_cos_sq (symAngle s)
  have hx : (invRotatePt s (transformPt s p)).x = p.x := by
    simp only [invRotatePt, transformPt, Real.cos_neg, Real.sin_neg]
    linear_combination (p.x - s.p1.x) * hpyth
  have hy : (invRotatePt s (transformPt s p)).y = p.y := by
    simp only [invRotatePt, transformPt, Real.cos_neg, Real.sin_neg]
    linear_combination (p.y - s.p1.y) * hpyth
  rw [hx, hy]
  norm_num

/-- Witness for C7. -/
theorem C7_transform_roundtrip_witness :
    (SymmetryLine.mk ⟨0, 0⟩ ⟨1, 0⟩).p1 ≠ (SymmetryLine.mk ⟨0, 0⟩ ⟨1, 0⟩).p2 ∧
    (|(invRotatePt (SymmetryLine.mk ⟨0, 0⟩ ⟨1, 0⟩)
        (transformPt (SymmetryLine.mk ⟨0, 0⟩ ⟨1, 0⟩) ⟨2, 3⟩)).x - (2 : ℝ)| ≤
          1 / 1000000000 ∧
      |(invRotatePt (SymmetryLine.mk ⟨0, 0⟩ ⟨1, 0⟩)
        (transformPt (SymmetryLine.mk ⟨0, 0⟩ ⟨1, 0⟩) ⟨2, 3⟩)).y - (3 : ℝ)| ≤
          1 / 1000000000) :=
  ⟨fun h => by
      have := congrArg Point.x h
      norm_num at this,
    C7_transform_roundtrip (SymmetryLine.mk ⟨0, 0⟩ ⟨1, 0⟩)
      (fun h => by
        have := congrArg Point.x h
        norm_num at this) ⟨2, 3⟩⟩

/-- **C9** (amended): a Spline segment with fewer than 2 knots produces no
samples (its `bezierPoints` list is empty); a `LINE` segment always produces
one transformed sample per point, so a one-point polyline produces one
sample — not zero, as the claim stated. -/
theorem C9_degenerate_segments :
    (∀ (t : Point ℚ → Point ℚ) (pts : List (Point ℚ)), pts.length < 2 →
      sampleShape t (Shape.spline pts) = []) ∧
    (∀ (t : Point ℚ → Point ℚ) (pts : List (Point ℚ)),
      (sampleShape t (Shape.line pts)).length = pts.length) := by
  constructor
  · intro t pts h
    have hn : ¬ 1 < pts.length := by omega
    simp [sampleShape, bezierPieces, hn]
  · intro t pts
    simp [sampleShape]

/-- Witness for C9. -/
theorem C9_degenerate_segments_witness :
    ([(⟨4, 7⟩ : Point ℚ)] : List (Point ℚ)).length < 2 ∧
    sampleShape id (Shape.spline [(⟨4, 7⟩ : Point ℚ)]) = [] ∧
    (sampleShape id (Shape.line [(⟨4, 7⟩ : Point ℚ)])).length =
      ([(⟨4, 7⟩ : Point ℚ)] : List (Point ℚ)).length :=
  ⟨by decide, C9_degenerate_segments.1 id _ (by decide),
    C9_degenerate_segments.2 id _⟩

/-- **C9, counterexample to the claim as stated**: a one-point `LINE` segment
produces one sample, not none. -/
theorem C9_counterexample :
    ([(⟨1, 2⟩ : Point ℚ)] : List (Point ℚ)).length < 2 ∧
    sampleShape id (Shape.line [(⟨1, 2⟩ : Point ℚ)]) = [⟨1, 2⟩] ∧
    sampleShape id (Shape.line [(⟨1, 2⟩ : Point ℚ)]) ≠ [] := by
  refine ⟨by decide, by decide, by decide⟩

/-! ## Claim theorems: chord interpolation (C4) -/

/-- `getLastD` of a nonempty list does not depend on the default. -/
lemma getLastD_indep (l : List (Point ℚ)) (d₁ d₂ : Point ℚ) (h : l ≠ []) :
    l.getLastD d₁ = l.getLastD d₂ := by
  cases l with
  | nil => exact absurd rfl h
  | cons p t => rw [List.getLastD_cons, List.getLastD_cons]

/-- On a span-sorted profile with at least two samples that brackets `y`, the
scanning loop finds the first bracketing adjacent pair and returns the linear
interpolation (left sample on zero span-delta). -/
lemma interpLoop_finds (y : ℚ) :
    ∀ (l : List (Point ℚ)), 2 ≤ l.length →
      List.Pairwise (fun p q : Point ℚ => p.y ≤ q.y) l →
      (l.headD ⟨0, 0⟩).y ≤ y → y ≤ (l.getLastD ⟨0, 0⟩).y →
      ∃ i, i + 1 < l.length ∧
        (l.getD i ⟨0, 0⟩).y ≤ y ∧ y ≤ (l.getD (i + 1) ⟨0, 0⟩).y ∧
        (∀ j, j < i →
          ¬((l.getD j ⟨0, 0⟩).y ≤ y ∧ y ≤ (l.getD (j + 1) ⟨0, 0⟩).y)) ∧
        interpLoop y l = some
          (if (l.getD (i + 1) ⟨0, 0⟩).y - (l.getD i ⟨0, 0⟩).y = 0 then
            (l.getD i ⟨0, 0⟩).x
          else
            (l.getD i ⟨0, 0⟩).x +
              (y - (l.getD i ⟨0, 0⟩).y) /
                ((l.getD (i + 1) ⟨0, 0⟩).y - (l.getD i ⟨0, 0⟩).y) *
                ((l.getD (i + 1) ⟨0, 0⟩).x - (l.getD i ⟨0, 0⟩).x)) := by
  intro l
  induction l with
  | nil => intro h; simp at h
  | cons p t ih =>
      intro hlen hsort hhead hlast
      cases t with
      | nil => simp at hlen
      | cons q rest =>
          by_cases hb : p.y ≤ y ∧ q.y ≥ y
          · refine ⟨0, by simp, by simpa using hb.1, by simpa using hb.2, ?_, ?_⟩
            · intro j hj
              omega
            · simp only [interpLoop, if_pos hb]
              simp
          · have hpy : p.y ≤ y := by simpa using hhead
            have hqy : q.y < y := by
              by_contra hq
              exact hb ⟨hpy, le_of_not_lt hq⟩
            cases rest with
            | nil =>
                exfalso
                have : y ≤ q.y := by
                  simpa [List.getLastD] using hlast
                linarith
            | cons r rest₂ =>
                have hlast' : y ≤ ((q :: r :: rest₂).getLastD ⟨0, 0⟩).y := by
                  have heq : (p :: q :: r :: rest₂).getLastD ⟨0, 0⟩ =
                      (q :: r :: rest₂).getLastD ⟨0, 0⟩ := by
                    rw [List.getLastD_cons]
                    exact getLastD_indep _ _ _ (by simp)
                  rw [heq] at hlast
                  exact hlast
                obtain ⟨i, h1, h2, h3, h4, h5⟩ :=
                  ih (by simp) hsort.of_cons (by simpa using hqy.le) hlast'
                refine ⟨i + 1, by simpa using h1, by simpa using h2,
                  by simpa using h3, ?_, ?_⟩
                · intro j hj
                  cases j with
                  | zero => simpa using hb
                  | succ j' =>
                      have := h4 j' (by omega)
                      simpa using this
                · rw [show interpLoop y (p :: q :: r :: rest₂) =
                      interpLoop y (q :: r :: rest₂) from by
                        simp only [interpLoop, if_neg hb]]
                  rw [h5]
                  simp

/-- **C4**: behaviour of the chord interpolation on a usable span-sorted
profile (the `SampledProfile` invariant is at least 2 samples): inside
`[first.y, last.y]` the first bracketing adjacent pair is used for linear
interpolation, with the left sample's chord returned on a zero span-delta;
outside, the boundary sample's chord is returned when `y` is within `1e-9`
of that endpoint (first endpoint checked first), else `0`. -/
theorem C4_interpolation (samples : List (Point ℚ)) (y : ℚ)
    (hsort : List.Pairwise (fun p q : Point ℚ => p.y ≤ q.y) samples)
    (hlen : 2 ≤ samples.length) :
    (¬(y < (samples.headD ⟨0, 0⟩).y ∨ y > (samples.getLastD ⟨0, 0⟩).y) →
      ∃ i, i + 1 < samples.length ∧
        (samples.getD i ⟨0, 0⟩).y ≤ y ∧ y ≤ (samples.getD (i + 1) ⟨0, 0⟩).y ∧
        (∀ j, j < i →
          ¬((samples.getD j ⟨0, 0⟩).y ≤ y ∧
            y ≤ (samples.getD (j + 1) ⟨0, 0⟩).y)) ∧
        interpolateX samples y =
          (if (samples.getD (i + 1) ⟨0, 0⟩).y - (samples.getD i ⟨0, 0⟩).y = 0
           then (samples.getD i ⟨0, 0⟩).x
           else
             (samples.getD i ⟨0, 0⟩).x +
               (y - (samples.getD i ⟨0, 0⟩).y) /
                 ((samples.getD (i + 1) ⟨0, 0⟩).y -
                   (samples.getD i ⟨0, 0⟩).y) *
                 ((samples.getD (i + 1) ⟨0, 0⟩).x -
                   (samples.getD i ⟨0, 0⟩).x))) ∧
    ((y < (samples.headD ⟨0, 0⟩).y ∨ y > (samples.getLastD ⟨0, 0⟩).y) →
      interpolateX samples y =
        if |y - (samples.headD ⟨0, 0⟩).y| < 1 / 1000000000 then
          (samples.headD ⟨0, 0⟩).x
        else if |y - (samples.getLastD ⟨0, 0⟩).y| < 1 / 1000000000 then
          (samples.getLastD ⟨0, 0⟩).x
        else 0) := by
  constructor
  · intro hin
    have hin' := hin
    push_neg at hin'
    obtain ⟨i, h1, h2, h3, h4, h5⟩ :=
      interpLoop_finds y samples hlen hsort hin'.1 hin'.2
    refine ⟨i, h1, h2, h3, h4, ?_⟩
    simp only [interpolateX]
    rw [if_neg hin, h5]
  · intro hout
    simp only [interpolateX]
    rw [if_pos hout]

/-- Witness for C4. -/
theorem C4_interpolation_witness :
    List.Pairwise (fun p q : Point ℚ => p.y ≤ q.y)
      [(⟨5, 0⟩ : Point ℚ), ⟨7, 2⟩] ∧
    2 ≤ ([(⟨5, 0⟩ : Point ℚ), ⟨7, 2⟩] : List (Point ℚ)).length ∧
    ((¬((1 : ℚ) < (([(⟨5, 0⟩ : Point ℚ), ⟨7, 2⟩]).headD ⟨0, 0⟩).y ∨
        (1 : ℚ) > (([(⟨5, 0⟩ : Point ℚ), ⟨7, 2⟩]).getLastD ⟨0, 0⟩).y) →
      ∃ i, i + 1 < ([(⟨5, 0⟩ : Point ℚ), ⟨7, 2⟩] : List (Point ℚ)).length ∧
        (([(⟨5, 0⟩ : Point ℚ), ⟨7, 2⟩]).getD i ⟨0, 0⟩).y ≤ (1 : ℚ) ∧
        (1 : ℚ) ≤ (([(⟨5, 0⟩ : Point ℚ), ⟨7, 2⟩]).getD (i + 1) ⟨0, 0⟩).y ∧
        (∀ j, j < i →
          ¬((([(⟨5, 0⟩ : Point ℚ), ⟨7, 2⟩]).getD j ⟨0, 0⟩).y ≤ (1 : ℚ) ∧
            (1 : ℚ) ≤ (([(⟨5, 0⟩ : Point ℚ), ⟨7, 2⟩]).getD (j + 1) ⟨0, 0⟩).y)) ∧
        interpolateX [(⟨5, 0⟩ : Point ℚ), ⟨7, 2⟩] 1 =
          (if (([(⟨5, 0⟩ : Point ℚ), ⟨7, 2⟩]).getD (i + 1) ⟨0, 0⟩).y -
              (([(⟨5, 0⟩ : Point ℚ), ⟨7, 2⟩]).getD i ⟨0, 0⟩).y = 0
           then (([(⟨5, 0⟩ : Point ℚ), ⟨7, 2⟩]).getD i ⟨0, 0⟩).x
           else
             (([(⟨5, 0⟩ : Point ℚ), ⟨7, 2⟩]).getD i ⟨0, 0⟩).x +
               ((1 : ℚ) - (([(⟨5, 0⟩ : Point ℚ), ⟨7, 2⟩]).getD i ⟨0, 0⟩).y) /
                 ((([(⟨5, 0⟩ : Point ℚ), ⟨7, 2⟩]).getD (i + 1) ⟨0, 0⟩).y -
                   (([(⟨5, 0⟩ : Point ℚ), ⟨7, 2⟩]).getD i ⟨0, 0⟩).y) *
                 ((([(⟨5, 0⟩ : Point ℚ), ⟨7, 2⟩]).getD (i + 1) ⟨0, 0⟩).x -
                   (([(⟨5, 0⟩ : Point ℚ), ⟨7, 2⟩]).getD i ⟨0, 0⟩).x))) ∧
    (((1 : ℚ) < (([(⟨5, 0⟩ : Point ℚ), ⟨7, 2⟩]).headD ⟨0, 0⟩).y ∨
        (1 : ℚ) > (([(⟨5, 0⟩ : Point ℚ), ⟨7, 2⟩]).getLastD ⟨0, 0⟩).y) →
      interpolateX [(⟨5, 0⟩ : Point ℚ), ⟨7, 2⟩] 1 =
        if |(1 : ℚ) - (([(⟨5, 0⟩ : Point ℚ), ⟨7, 2⟩]).headD ⟨0, 0⟩).y| <
            1 / 1000000000 then
          (([(⟨5, 0⟩ : Point ℚ), ⟨7, 2⟩]).headD ⟨0, 0⟩).x
        else if |(1 : ℚ) - (([(⟨5, 0⟩ : Point ℚ), ⟨7, 2⟩]).getLastD ⟨0, 0⟩).y| <
            1 / 1000000000 then
          (([(⟨5, 0⟩ : Point ℚ), ⟨7, 2⟩]).getLastD ⟨0, 0⟩).x
        else 0)) :=
  ⟨by decide, by decide, C4_interpolation [(⟨5, 0⟩ : Point ℚ), ⟨7, 2⟩] 1
    (by decide) (by decide)⟩

/-! ## Claim theorems: spline tangent system (C5) -/

/-- First forward-elimination coefficient of the spline system. -/
lemma spCP_zero (N : ℕ) :
    thomasCP (fun _ => (1 : ℚ)) (splineB N) (fun _ => 1) N 0 = 1 / 2 := by
  have hb : (splineB N 0 : ℚ) = 2 := if_pos (Or.inl rfl)
  simp [thomasCP, hb]

/-- The forward-elimination coefficients of the spline system stay in
`(0, 1/2]`, which keeps every pivot positive. -/
lemma spCP_bounds (N : ℕ) (hN : 2 ≤ N) :
    ∀ i, i ≤ N - 2 →
      0 < thomasCP (fun _ => (1 : ℚ)) (splineB N) (fun _ => 1) N i ∧
      thomasCP (fun _ => (1 : ℚ)) (splineB N) (fun _ => 1) N i ≤ 1 / 2 := by
  intro i
  induction i with
  | zero =>
      intro _
      rw [spCP_zero N]
      norm_num
  | succ i ih =>
      intro h
      obtain ⟨hpos, hle⟩ := ih (by omega)
      have hguard : i + 1 < N - 1 := by omega
      have hb : (splineB N (i + 1) : ℚ) = 4 := by
        unfold splineB
        rw [if_neg]
        push_neg
        exact ⟨by omega, by omega⟩
      have hstep : thomasCP (fun _ => (1 : ℚ)) (splineB N) (fun _ => 1) N (i + 1) =
          1 / (splineB N (i + 1) -
            thomasCP (fun _ => (1 : ℚ)) (splineB N) (fun _ => 1) N i) := by
        simp [thomasCP, hguard]
      rw [hstep, hb]
      constructor
      · apply div_pos one_pos
        linarith
      · rw [div_le_div_iff (by linarith) (by norm_num)]
        linarith

/-- Every pivot `b[i] - a[i]*cPrime[i-1]` of the spline system is positive. -/
lemma spDemon_pos (N : ℕ) (hN : 2 ≤ N) (i : ℕ) (h1 : 1 ≤ i) (h2 : i ≤ N - 1) :
    0 < (splineB N i : ℚ) -
      thomasCP (fun _ => (1 : ℚ)) (splineB N) (fun _ => 1) N (i - 1) := by
  have hcp := spCP_bounds N hN (i - 1) (by omega)
  have hb : (2 : ℚ) ≤ splineB N i := by
    unfold splineB
    split
    · norm_num
    · norm_num
  linarith [hcp.1, hcp.2]

/-- The forward-eliminated right-hand side satisfies its defining recurrence
(multiplied out, since the pivot is nonzero). -/
lemma spDP_mul (p : ℕ → ℚ) (N : ℕ) (hN : 2 ≤ N) (i : ℕ)
    (h1 : 1 ≤ i) (h2 : i ≤ N - 1) :
    thomasDP (fun _ => 1) (splineB N) (fun _ => 1) (splineRHS p N) N i *
      ((splineB N i : ℚ) -
        thomasCP (fun _ => (1 : ℚ)) (splineB N) (fun _ => 1) N (i - 1)) =
    splineRHS p N i -
      thomasDP (fun _ => 1) (splineB N) (fun _ => 1) (splineRHS p N) N (i - 1) := by
  obtain ⟨j, rfl⟩ : ∃ j, i = j + 1 := ⟨i - 1, by omega⟩
  have hd : thomasDP (fun _ => (1 : ℚ)) (splineB N) (fun _ => 1)
      (splineRHS p N) N (j + 1) =
      (splineRHS p N (j + 1) -
        thomasDP (fun _ => 1) (splineB N) (fun _ => 1) (splineRHS p N) N j) /
      (splineB N (j + 1) -
        thomasCP (fun _ => (1 : ℚ)) (splineB N) (fun _ => 1) N j) := by
    simp [thomasDP]
  rw [show j + 1 - 1 = j from rfl]
  rw [hd]
  exact div_mul_cancel₀ _
    (ne_of_gt (by simpa using spDemon_pos N hN (j + 1) (by omega) h2))

/-- The forward-elimination coefficient satisfies its defining recurrence. -/
lemma spCP_mul (N : ℕ) (hN : 2 ≤ N) (i : ℕ) (h1 : 1 ≤ i) (h2 : i ≤ N - 2) :
    thomasCP (fun _ => (1 : ℚ)) (splineB N) (fun _ => 1) N i *
      ((splineB N i : ℚ) -
        thomasCP (fun _ => (1 : ℚ)) (splineB N) (fun _ => 1) N (i - 1)) = 1 := by
  obtain ⟨j, rfl⟩ : ∃ j, i = j + 1 := ⟨i - 1, by omega⟩
  have hguard : j + 1 < N - 1 := by omega
  have hstep : thomasCP (fun _ => (1 : ℚ)) (splineB N) (fun _ => 1) N (j + 1) =
      1 / (splineB N (j + 1) -
        thomasCP (fun _ => (1 : ℚ)) (splineB N) (fun _ => 1) N j) := by
    simp [thomasCP, hguard]
  rw [show j + 1 - 1 = j from rfl, hstep, one_div]
  exact inv_mul_cancel₀
    (ne_of_gt (by simpa using spDemon_pos N hN (j + 1) (by omega) (by omega)))

/-- Back-substitution step of the spline system. -/
lemma spX_step (p : ℕ → ℚ) (N : ℕ) (hN : 2 ≤ N) (i : ℕ) (h : i ≤ N - 2) :
    thomasAlgorithm (fun _ => 1) (splineB N) (fun _ => 1) (splineRHS p N) N i =
      thomasDP (fun _ => 1) (splineB N) (fun _ => 1) (splineRHS p N) N i -
        thomasCP (fun _ => (1 : ℚ)) (splineB N) (fun _ => 1) N i *
          thomasAlgorithm (fun _ => 1) (splineB N) (fun _ => 1)
            (splineRHS p N) N (i + 1) := by
  unfold thomasAlgorithm
  have h1 : N - 1 - i = (N - 2 - i) + 1 := by omega
  rw [h1]
  have hrev : thomasXRev (fun _ => (1 : ℚ)) (splineB N) (fun _ => 1)
      (splineRHS p N) N ((N - 2 - i) + 1) =
      thomasDP (fun _ => 1) (splineB N) (fun _ => 1) (splineRHS p N) N
          (N - 1 - ((N - 2 - i) + 1)) -
        thomasCP (fun _ => (1 : ℚ)) (splineB N) (fun _ => 1) N
          (N - 1 - ((N - 2 - i) + 1)) *
        thomasXRev (fun _ => (1 : ℚ)) (splineB N) (fun _ => 1)
          (splineRHS p N) N (N - 2 - i) := by
    simp [thomasXRev]
  rw [hrev, show N - 1 - ((N - 2 - i) + 1) = i from by omega,
    show N - 2 - i = N - 1 - (i + 1) from by omega]

/-- The last unknown equals the last eliminated right-hand side. -/
lemma spX_last (p : ℕ → ℚ) (N : ℕ) :
    thomasAlgorithm (fun _ => 1) (splineB N) (fun _ => 1)
        (splineRHS p N) N (N - 1) =
      thomasDP (fun _ => 1) (splineB N) (fun _ => 1) (splineRHS p N) N (N - 1) := by
  unfold thomasAlgorithm
  rw [Nat.sub_self]
  simp [thomasXRev]

/-- Row `0` of the spline system holds for the solved tangents. -/
lemma spRow0 (p : ℕ → ℚ) (N : ℕ) (hN : 2 ≤ N) :
    2 * thomasAlgorithm (fun _ => 1) (splineB N) (fun _ => 1)
        (splineRHS p N) N 0 +
      thomasAlgorithm (fun _ => 1) (splineB N) (fun _ => 1)
        (splineRHS p N) N 1 = splineRHS p N 0 := by
  have hx0 := spX_step p N hN 0 (by omega)
  have hb0 : (splineB N 0 : ℚ) = 2 := if_pos (Or.inl rfl)
  have hdp0 : thomasDP (fun _ => (1 : ℚ)) (splineB N) (fun _ => 1)
      (splineRHS p N) N 0 = splineRHS p N 0 / 2 := by
    simp [thomasDP, hb0]
  have hcp0 := spCP_zero N
  rw [show (0 : ℕ) + 1 = 1 from rfl] at hx0
  rw [hx0, hdp0, hcp0]
  ring

/-- Row `N - 1` of the spline system holds for the solved tangents. -/
lemma spRowN (p : ℕ → ℚ) (N : ℕ) (hN : 2 ≤ N) :
    thomasAlgorithm (fun _ => 1) (splineB N) (fun _ => 1)
        (splineRHS p N) N (N - 2) +
      2 * thomasAlgorithm (fun _ => 1) (splineB N) (fun _ => 1)
        (splineRHS p N) N (N - 1) = splineRHS p N (N - 1) := by
  have hxs := spX_step p N hN (N - 2) (le_refl _)
  have hxl := spX_last p N
  have hd := spDP_mul p N hN (N - 1) (by omega) (le_refl _)
  have hb : (splineB N (N - 1) : ℚ) = 2 := by
    unfold splineB
    rw [if_pos (Or.inr rfl)]
  rw [show N - 1 - 1 = N - 2 from by omega, hb] at hd
  rw [show N - 2 + 1 = N - 1 from by omega] at hxs
  rw [hxs, hxl]
  linear_combination hd

/-- Interior rows of the spline system hold for the solved tangents. -/
lemma spRowI (p : ℕ → ℚ) (N : ℕ) (hN : 2 ≤ N) (i : ℕ)
    (h1 : 1 ≤ i) (h2 : i ≤ N - 2) :
    thomasAlgorithm (fun _ => 1) (splineB N) (fun _ => 1)
        (splineRHS p N) N (i - 1) +
      4 * thomasAlgorithm (fun _ => 1) (splineB N) (fun _ => 1)
        (splineRHS p N) N i +
      thomasAlgorithm (fun _ => 1) (splineB N) (fun _ => 1)
        (splineRHS p N) N (i + 1) = splineRHS p N i := by
  obtain ⟨j, rfl⟩ : ∃ j, i = j + 1 := ⟨i - 1, by omega⟩
  have hx1 := spX_step p N hN j (by omega)
  have hx2 := spX_step p N hN (j + 1) h2
  have hd := spDP_mul p N hN (j + 1) (by omega) (by omega)
  have hc := spCP_mul N hN (j + 1) (by omega) h2
  have hb : (splineB N (j + 1) : ℚ) = 4 := by
    unfold splineB
    rw [if_neg]
    push_neg
    exact ⟨by omega, by omega⟩
  rw [show j + 1 - 1 = j from rfl, hb] at hd hc
  rw [show j + 1 - 1 = j from rfl]
  rw [hx1, hx2]
  linear_combination hd - thomasAlgorithm (fun _ => (1 : ℚ)) (splineB N)
    (fun _ => 1) (splineRHS p N) N (j + 1 + 1) * hc

/-- The three row families of the spline tangent system, with the right-hand
sides written out. -/
lemma splineTangents_rows (p : ℕ → ℚ) (N : ℕ) (hN : 2 ≤ N) :
    (2 * splineTangents p N 0 + splineTangents p N 1 = 3 * (p 1 - p 0)) ∧
    (2 * splineTangents p N (N - 1) + splineTangents p N (N - 2) =
      3 * (p (N - 1) - p (N - 2))) ∧
    (∀ i, 1 ≤ i → i ≤ N - 2 →
      splineTangents p N (i - 1) + 4 * splineTangents p N i +
        splineTangents p N (i + 1) = 3 * (p (i + 1) - p (i - 1))) := by
  unfold splineTangents
  refine ⟨?_, ?_, ?_⟩
  · have h := spRow0 p N hN
    have hrhs : splineRHS p N 0 = 3 * (p 1 - p 0) := if_pos rfl
    rw [hrhs] at h
    exact h
  · have h := spRowN p N hN
    have hrhs : splineRHS p N (N - 1) = 3 * (p (N - 1) - p (N - 2)) := by
      unfold splineRHS
      rw [if_neg (by omega : ¬ N - 1 = 0), if_pos rfl]
    rw [hrhs] at h
    linarith
  · intro i h1 h2
    have h := spRowI p N hN i h1 h2
    have hrhs : splineRHS p N i = 3 * (p (i + 1) - p (i - 1)) := by
      unfold splineRHS
      rw [if_neg (by omega), if_neg (by omega)]
    rw [hrhs] at h
    exact h

/-- Index access into the `bezierPoints` list built by the fitter. -/
lemma bezierPieces_getD {α : Type} [Field α] (ps : List (Point α))
    (h : 1 < ps.length) (i : ℕ) (hi : i < ps.length - 1) :
    (bezierPieces ps).getD i ⟨⟨0, 0⟩, ⟨0, 0⟩, ⟨0, 0⟩, ⟨0, 0⟩⟩ =
      { p1 := ps.getD i ⟨0, 0⟩
        cp1 := ⟨coordX ps i + splineTangents (coordX ps) ps.length i / 3,
                coordY ps i + splineTangents (coordY ps) ps.length i / 3⟩
        cp2 := ⟨coordX ps (i + 1) -
                  splineTangents (coordX ps) ps.length (i + 1) / 3,
                coordY ps (i + 1) -
                  splineTangents (coordY ps) ps.length (i + 1) / 3⟩
        p2 := ps.getD (i + 1) ⟨0, 0⟩ } := by
  unfold bezierPieces
  rw [if_pos h]
  simp [List.getD_eq_getElem?_getD, List.getElem?_map, List.getElem?_range, hi]

/-- **C5**: for every knot sequence with at least two knots, the per-axis
tangents used by the spline fitter satisfy exactly the endpoint rows
`2*D_0 + D_1 = 3*(P_1 - P_0)` and `2*D_n + D_{n-1} = 3*(P_n - P_{n-1})` and
the interior rows `D_{i-1} + 4*D_i + D_{i+1} = 3*(P_{i+1} - P_{i-1})` on both
coordinate axes, and piece `i` has control points `cp1 = P_i + D_i/3` and
`cp2 = P_{i+1} - D_{i+1}/3`. -/
theorem C5_spline_tangent_system (ps : List (Point ℚ)) (hN : 2 ≤ ps.length) :
    (2 * splineTangents (coordX ps) ps.length 0 +
        splineTangents (coordX ps) ps.length 1 =
      3 * (coordX ps 1 - coordX ps 0)) ∧
    (2 * splineTangents (coordX ps) ps.length (ps.length - 1) +
        splineTangents (coordX ps) ps.length (ps.length - 2) =
      3 * (coordX ps (ps.length - 1) - coordX ps (ps.length - 2))) ∧
    (∀ i, 1 ≤ i → i ≤ ps.length - 2 →
      splineTangents (coordX ps) ps.length (i - 1) +
          4 * splineTangents (coordX ps) ps.length i +
          splineTangents (coordX ps) ps.length (i + 1) =
        3 * (coordX ps (i + 1) - coordX ps (i - 1))) ∧
    (2 * splineTangents (coordY ps) ps.length 0 +
        splineTangents (coordY ps) ps.length 1 =
      3 * (coordY ps 1 - coordY ps 0)) ∧
    (2 * splineTangents (coordY ps) ps.length (ps.length - 1) +
        splineTangents (coordY ps) ps.length (ps.length - 2) =
      3 * (coordY ps (ps.length - 1) - coordY ps (ps.length - 2))) ∧
    (∀ i, 1 ≤ i → i ≤ ps.length - 2 →
      splineTangents (coordY ps) ps.length (i - 1) +
          4 * splineTangents (coordY ps) ps.length i +
          splineTangents (coordY ps) ps.length (i + 1) =
        3 * (coordY ps (i + 1) - coordY ps (i - 1))) ∧
    (∀ i, i < ps.length - 1 →
      (bezierPieces ps).getD i ⟨⟨0, 0⟩, ⟨0, 0⟩, ⟨0, 0⟩, ⟨0, 0⟩⟩ =
        { p1 := ps.getD i ⟨0, 0⟩
          cp1 := ⟨coordX ps i + splineTangents (coordX ps) ps.length i / 3,
                  coordY ps i + splineTangents (coordY ps) ps.length i / 3⟩
          cp2 := ⟨coordX ps (i + 1) -
                    splineTangents (coordX ps) ps.length (i + 1) / 3,
                  coordY ps (i + 1) -
                    splineTangents (coordY ps) ps.length (i + 1) / 3⟩
          p2 := ps.getD (i + 1) ⟨0, 0⟩ }) := by
  obtain ⟨hx0, hxN, hxI⟩ := splineTangents_rows (coordX ps) ps.length hN
  obtain ⟨hy0, hyN, hyI⟩ := splineTangents_rows (coordY ps) ps.length hN
  exact ⟨hx0, hxN, hxI, hy0, hyN, hyI,
    fun i hi => bezierPieces_getD ps (by omega) i hi⟩

/-- Witness for C5 on a two-knot sequence. -/
theorem C5_spline_tangent_system_witness :
    2 ≤ ([(⟨0, 0⟩ : Point ℚ), ⟨3, 6⟩] : List (Point ℚ)).length ∧
    (2 * splineTangents (coordX [(⟨0, 0⟩ : Point ℚ), ⟨3, 6⟩]) 2 0 +
        splineTangents (coordX [(⟨0, 0⟩ : Point ℚ), ⟨3, 6⟩]) 2 1 =
      3 * (coordX [(⟨0, 0⟩ : Point ℚ), ⟨3, 6⟩] 1 -
        coordX [(⟨0, 0⟩ : Point ℚ), ⟨3, 6⟩] 0)) :=
  ⟨by decide,
    (C5_spline_tangent_system [(⟨0, 0⟩ : Point ℚ), ⟨3, 6⟩] (by decide)).1⟩

/-! ## Claim theorems: spline interpolation and C1 continuity (C6) -/

/-- Derivative of a cubic polynomial. -/
lemma cubic_hasDerivAt (a₀ a₁ a₂ a₃ t : ℝ) :
    HasDerivAt (fun u : ℝ => a₀ + a₁ * u + a₂ * u ^ 2 + a₃ * u ^ 3)
      (a₁ + 2 * a₂ * t + 3 * a₃ * t ^ 2) t := by
  have h1 : HasDerivAt (fun u : ℝ => a₁ * u) a₁ t := by
    simpa using (hasDerivAt_id t).const_mul a₁
  have h2 : HasDerivAt (fun u : ℝ => a₂ * u ^ 2) (a₂ * (2 * t)) t := by
    simpa using (hasDerivAt_pow 2 t).const_mul a₂
  have h3 : HasDerivAt (fun u : ℝ => a₃ * u ^ 3) (a₃ * (3 * t ^ 2)) t := by
    simpa using (hasDerivAt_pow 3 t).const_mul a₃
  have h := (((hasDerivAt_const t a₀).add h1).add h2).add h3
  rw [show a₁ + 2 * a₂ * t + 3 * a₃ * t ^ 2 =
      0 + a₁ + a₂ * (2 * t) + a₃ * (3 * t ^ 2) from by ring]
  exact h

/-- The x-coordinate of the Bezier evaluation as a cubic polynomial in `t`. -/
lemma bezier_x_poly (seg : BezierSeg ℝ) :
    (fun t : ℝ => (getBezierPoint seg t).x) =
      fun t : ℝ => seg.p1.x + 3 * (seg.cp1.x - seg.p1.x) * t +
        3 * (seg.p1.x - 2 * seg.cp1.x + seg.cp2.x) * t ^ 2 +
        (seg.p2.x - seg.p1.x + 3 * seg.cp1.x - 3 * seg.cp2.x) * t ^ 3 := by
  funext t
  simp only [getBezierPoint]
  ring

/-- The y-coordinate of the Bezier evaluation as a cubic polynomial in `t`. -/
lemma bezier_y_poly (seg : BezierSeg ℝ) :
    (fun t : ℝ => (getBezierPoint seg t).y) =
      fun t : ℝ => seg.p1.y + 3 * (seg.cp1.y - seg.p1.y) * t +
        3 * (seg.p1.y - 2 * seg.cp1.y + seg.cp2.y) * t ^ 2 +
        (seg.p2.y - seg.p1.y + 3 * seg.cp1.y - 3 * seg.cp2.y) * t ^ 3 := by
  funext t
  simp only [getBezierPoint]
  ring

/-- Derivative of the Bezier x-coordinate at the end of a piece. -/
lemma bezier_deriv_one_x (seg : BezierSeg ℝ) :
    deriv (fun t : ℝ => (getBezierPoint seg t).x) 1 =
      3 * (seg.p2.x - seg.cp2.x) := by
  rw [bezier_x_poly seg, (cubic_hasDerivAt _ _ _ _ 1).deriv]
  ring

/-- Derivative of the Bezier x-coordinate at the start of a piece. -/
lemma bezier_deriv_zero_x (seg : BezierSeg ℝ) :
    deriv (fun t : ℝ => (getBezierPoint seg t).x) 0 =
      3 * (seg.cp1.x - seg.p1.x) := by
  rw [bezier_x_poly seg, (cubic_hasDerivAt _ _ _ _ 0).deriv]
  ring

/-- Derivative of the Bezier y-coordinate at the end of a piece. -/
lemma bezier_deriv_one_y (seg : BezierSeg ℝ) :
    deriv (fun t : ℝ => (getBezierPoint seg t).y) 1 =
      3 * (seg.p2.y - seg.cp2.y) := by
  rw [bezier_y_poly seg, (cubic_hasDerivAt _ _ _ _ 1).deriv]
  ring

/-- Derivative of the Bezier y-coordinate at the start of a piece. -/
lemma bezier_deriv_zero_y (seg : BezierSeg ℝ) :
    deriv (fun t : ℝ => (getBezierPoint seg t).y) 0 =
      3 * (seg.cp1.y - seg.p1.y) := by
  rw [bezier_y_poly seg, (cubic_hasDerivAt _ _ _ _ 0).deriv]
  ring

/-- **C6**: for every knot sequence of length at least 2, each Bezier piece
starts at its knot (`p1 = P_i`) and ends at the next (`p2 = P_{i+1}`) — the
fitted curve passes exactly through every knot — and the derivative of piece
`i` at `t = 1` equals the derivative of piece `i+1` at `t = 0` in both
coordinates (first-derivative continuity across knots). -/
theorem C6_spline_interpolation_C1 (ps : List (Point ℝ)) (hN : 2 ≤ ps.length) :
    ∀ i, i < ps.length - 1 →
      ((bezierPieces ps).getD i ⟨⟨0, 0⟩, ⟨0, 0⟩, ⟨0, 0⟩, ⟨0, 0⟩⟩).p1 =
          ps.getD i ⟨0, 0⟩ ∧
      ((bezierPieces ps).getD i ⟨⟨0, 0⟩, ⟨0, 0⟩, ⟨0, 0⟩, ⟨0, 0⟩⟩).p2 =
          ps.getD (i + 1) ⟨0, 0⟩ ∧
      (i + 1 < ps.length - 1 →
        deriv (fun t : ℝ => (getBezierPoint
            ((bezierPieces ps).getD i ⟨⟨0, 0⟩, ⟨0, 0⟩, ⟨0, 0⟩, ⟨0, 0⟩⟩) t).x) 1 =
          deriv (fun t : ℝ => (getBezierPoint
            ((bezierPieces ps).getD (i + 1)
              ⟨⟨0, 0⟩, ⟨0, 0⟩, ⟨0, 0⟩, ⟨0, 0⟩⟩) t).x) 0 ∧
        deriv (fun t : ℝ => (getBezierPoint
            ((bezierPieces ps).getD i ⟨⟨0, 0⟩, ⟨0, 0⟩, ⟨0, 0⟩, ⟨0, 0⟩⟩) t).y) 1 =
          deriv (fun t : ℝ => (getBezierPoint
            ((bezierPieces ps).getD (i + 1)
              ⟨⟨0, 0⟩, ⟨0, 0⟩, ⟨0, 0⟩, ⟨0, 0⟩⟩) t).y) 0) := by
  intro i hi
  have hp := bezierPieces_getD ps (by omega) i hi
  refine ⟨by rw [hp], by rw [hp], fun hi1 => ?_⟩
  have hp1 := bezierPieces_getD ps (by omega) (i + 1) hi1
  constructor
  · rw [hp, hp1, bezier_deriv_one_x, bezier_deriv_zero_x]
    simp only [coordX]
    ring
  · rw [hp, hp1, bezier_deriv_one_y, bezier_deriv_zero_y]
    simp only [coordY]
    ring

/-- Witness for C6 on a three-knot sequence. -/
theorem C6_spline_interpolation_C1_witness :
    2 ≤ ([(⟨0, 0⟩ : Point ℝ), ⟨1, 1⟩, ⟨2, 0⟩] : List (Point ℝ)).length ∧
    (∀ i, i < ([(⟨0, 0⟩ : Point ℝ), ⟨1, 1⟩, ⟨2, 0⟩] : List (Point ℝ)).length - 1 →
      ((bezierPieces [(⟨0, 0⟩ : Point ℝ), ⟨1, 1⟩, ⟨2, 0⟩]).getD i
          ⟨⟨0, 0⟩, ⟨0, 0⟩, ⟨0, 0⟩, ⟨0, 0⟩⟩).p1 =
          ([(⟨0, 0⟩ : Point ℝ), ⟨1, 1⟩, ⟨2, 0⟩]).getD i ⟨0, 0⟩ ∧
      ((bezierPieces [(⟨0, 0⟩ : Point ℝ), ⟨1, 1⟩, ⟨2, 0⟩]).getD i
          ⟨⟨0, 0⟩, ⟨0, 0⟩, ⟨0, 0⟩, ⟨0, 0⟩⟩).p2 =
          ([(⟨0, 0⟩ : Point ℝ), ⟨1, 1⟩, ⟨2, 0⟩]).getD (i + 1) ⟨0, 0⟩ ∧
      (i + 1 < ([(⟨0, 0⟩ : Point ℝ), ⟨1, 1⟩, ⟨2, 0⟩] : List (Point ℝ)).length - 1 →
        deriv (fun t : ℝ => (getBezierPoint
            ((bezierPieces [(⟨0, 0⟩ : Point ℝ), ⟨1, 1⟩, ⟨2, 0⟩]).getD i
              ⟨⟨0, 0⟩, ⟨0, 0⟩, ⟨0, 0⟩, ⟨0, 0⟩⟩) t).x) 1 =
          deriv (fun t : ℝ => (getBezierPoint
            ((bezierPieces [(⟨0, 0⟩ : Point ℝ), ⟨1, 1⟩, ⟨2, 0⟩]).getD (i + 1)
              ⟨⟨0, 0⟩, ⟨0, 0⟩, ⟨0, 0⟩, ⟨0, 0⟩⟩) t).x) 0 ∧
        deriv (fun t : ℝ => (getBezierPoint
            ((bezierPieces [(⟨0, 0⟩ : Point ℝ), ⟨1, 1⟩, ⟨2, 0⟩]).getD i
              ⟨⟨0, 0⟩, ⟨0, 0⟩, ⟨0, 0⟩, ⟨0, 0⟩⟩) t).y) 1 =
          deriv (fun t : ℝ => (getBezierPoint
            ((bezierPieces [(⟨0, 0⟩ : Point ℝ), ⟨1, 1⟩, ⟨2, 0⟩]).getD (i + 1)
              ⟨⟨0, 0⟩, ⟨0, 0⟩, ⟨0, 0⟩, ⟨0, 0⟩⟩) t).y) 0)) :=
  ⟨by decide,
    C6_spline_interpolation_C1 [(⟨0, 0⟩ : Point ℝ), ⟨1, 1⟩, ⟨2, 0⟩] (by decide)⟩

end BWB
